import Mathlib

/-!
Verification of the `rust-todo` CLI task manager (`src/main.rs`).

The program is embedded shallowly: each `TodoList` method becomes a pure
function from the in-memory task list to a result record carrying the new
task list, whether `save()` was invoked, and the message printed.  The
persistence layer (`serde_json::to_string_pretty` / `serde_json::from_str`
over `Vec<Task>`, plus `fs::read_to_string` / `fs::write`) is modelled by an
explicit JSON emitter/parser over `List Char` and a `FileState` value.
-/

namespace Todo

/-- Embeds the Rust `struct Task` (`src/main.rs:48-54`): id, description,
completion flag and creation timestamp (kept as an opaque string, exactly as
the Rust code stores the RFC 3339 rendering). -/
structure Task where
  id : Nat
  description : String
  completed : Bool
  created_at : String
deriving DecidableEq

/-- The messages the program prints, one constructor per `println!` branch of
the `TodoList` methods and the list rendering. -/
inductive Msg where
  | taskAdded
  | noTasksFound
  | listed (view : List Task)
  | alreadyCompleted (id : Nat)
  | markedComplete (id : Nat)
  | notFound (id : Nat)
  | deleted (id : Nat)
  | clearWarning
  | cleared (count : Nat)
deriving DecidableEq

/-- Result of one mutating `TodoList` method: the task vector afterwards,
whether `self.save()` was called, and the message printed. -/
structure OpResult where
  tasks : List Task
  saved : Bool
  msg : Msg
deriving DecidableEq

/-- `self.tasks.iter().map(|t| t.id).max().unwrap_or(0)` from `add_task`
(`src/main.rs:93-98`). -/
def maxId (tasks : List Task) : Nat :=
  ((tasks.map Task.id).max?).getD 0

/-- Embeds `TodoList::add_task` (`src/main.rs:92-110`): next id is
`maxId + 1`, the new task is appended with `completed = false` and the
current timestamp, and the list is saved. -/
def add_task (tasks : List Task) (description : String) (now : String) : OpResult :=
  let id := maxId tasks + 1
  let task : Task := ⟨id, description, false, now⟩
  ⟨tasks ++ [task], true, Msg.taskAdded⟩

/-- Embeds the filtering part of `TodoList::list_tasks`
(`src/main.rs:112-119`): completed-only if `show_completed`, else
pending-only if `show_pending`, else everything. -/
def list_tasks (tasks : List Task) (show_completed show_pending : Bool) : List Task :=
  if show_completed then tasks.filter (fun t => t.completed)
  else if show_pending then tasks.filter (fun t => !t.completed)
  else tasks

/-- Embeds the printing part of `TodoList::list_tasks`
(`src/main.rs:121-133`): "No tasks found." on an empty view, otherwise the
rendered view. -/
def list_output (tasks : List Task) (show_completed show_pending : Bool) : Msg :=
  let view := list_tasks tasks show_completed show_pending
  if view.isEmpty then Msg.noTasksFound else Msg.listed view

/-- `task.completed = true` applied to a task record. -/
def markCompleted (t : Task) : Task :=
  ⟨t.id, t.description, true, t.created_at⟩

/-- Embeds `TodoList::complete_task` (`src/main.rs:135-148`):
`iter_mut().find(|t| t.id == id)` locates the first task with the id; if it
is already completed only a message is printed, otherwise it is marked
completed and the list saved; if no task matches, a not-found message. -/
def complete_task : List Task → Nat → OpResult
  | [], id => ⟨[], false, Msg.notFound id⟩
  | t :: ts, id =>
    if t.id = id then
      if t.completed then ⟨t :: ts, false, Msg.alreadyCompleted id⟩
      else ⟨markCompleted t :: ts, true, Msg.markedComplete id⟩
    else
      let r := complete_task ts id
      ⟨t :: r.tasks, r.saved, r.msg⟩

/-- Embeds `TodoList::delete_task` (`src/main.rs:150-160`):
`retain(|t| t.id != id)` drops every task with the id; the list is saved
only when the length shrank, otherwise a not-found message is printed. -/
def delete_task (tasks : List Task) (id : Nat) : OpResult :=
  let remaining := tasks.filter (fun t => t.id != id)
  if remaining.length < tasks.length then ⟨remaining, true, Msg.deleted id⟩
  else ⟨remaining, false, Msg.notFound id⟩

/-- Embeds `TodoList::clear_all` (`src/main.rs:162-172`): without
confirmation nothing is touched and a warning is printed; with confirmation
the list is emptied and saved. -/
def clear_all (tasks : List Task) (confirmed : Bool) : OpResult :=
  if !confirmed then ⟨tasks, false, Msg.clearWarning⟩
  else ⟨[], true, Msg.cleared tasks.length⟩

/-- Folding `add_task` over a list of descriptions: `add` issued N times. -/
def addN (descs : List String) (now : String) (tasks : List Task) : List Task :=
  descs.foldl (fun ts d => (add_task ts d now).tasks) tasks

/-! ### The persistence format

`save` runs `serde_json::to_string_pretty(&self.tasks)` and `load_tasks`
runs `serde_json::from_str::<Vec<Task>>` (`src/main.rs:75-90`).  serde_json
is an external crate, so its behaviour on this concrete data shape is
modelled here character by character: the emitter reproduces
`to_string_pretty`'s output (two-space indentation, `\u00XX` lowercase-hex
escapes for control characters without a short escape), and the parser
accepts that grammar, failing with `none` where `from_str` would error.
The parser is stricter than serde in inessential ways (object keys must
appear in the emitted order) but agrees with it on every string the emitter
produces and rejects non-JSON garbage the same way. -/

/-- The character `0x7b` (opening curly bracket). -/
def lbrace : Char := Char.ofNat 123

/-- The character `0x7d` (closing curly bracket). -/
def rbrace : Char := Char.ofNat 125

/-- Decimal digit character for `n < 10`. -/
def digitChar (n : Nat) : Char := Char.ofNat (48 + n)

/-- Lowercase hexadecimal digit character for `n < 16`, as serde_json's
escape table uses. -/
def hexDigitChar (n : Nat) : Char :=
  if n < 10 then Char.ofNat (48 + n) else Char.ofNat (87 + n)

/-- Decimal rendering of a natural number (serde_json's integer output). -/
def emitNat (n : Nat) : List Char :=
  if _h : n < 10 then [digitChar n]
  else emitNat (n / 10) ++ [digitChar (n % 10)]
decreasing_by exact Nat.div_lt_self (by omega) (by omega)

/-- JSON booleans. -/
def emitBool (b : Bool) : List Char :=
  if b then "true".data else "false".data

/-- serde_json's escaping of one character inside a JSON string: quote and
backslash get a backslash escape, the five control characters with short
escapes get those, the remaining control characters become `\u00XX`, and
everything else is written verbatim. -/
def escapeChar (c : Char) : List Char :=
  if c = '"' then ['\\', '"']
  else if c = '\\' then ['\\', '\\']
  else if c.toNat = 8 then ['\\', 'b']
  else if c.toNat = 9 then ['\\', 't']
  else if c.toNat = 10 then ['\\', 'n']
  else if c.toNat = 12 then ['\\', 'f']
  else if c.toNat = 13 then ['\\', 'r']
  else if c.toNat < 32 then
    ['\\', 'u', '0', '0', hexDigitChar (c.toNat / 16), hexDigitChar (c.toNat % 16)]
  else [c]

/-- Escaping applied to a whole string body. -/
def escapeString (s : List Char) : List Char :=
  (s.map escapeChar).flatten

/-- A JSON string literal: quote, escaped body, quote. -/
def emitString (s : String) : List Char :=
  '"' :: escapeString s.data ++ ['"']

/-- One task as `to_string_pretty` renders it at nesting depth one inside
the array: fields in declaration order, two-space indentation. -/
def emitTask (t : Task) : List Char :=
  "\x7b\n    \"id\": ".data ++ emitNat t.id
  ++ ",\n    \"description\": ".data ++ emitString t.description
  ++ ",\n    \"completed\": ".data ++ emitBool t.completed
  ++ ",\n    \"created_at\": ".data ++ emitString t.created_at
  ++ "\n  \x7d".data

/-- Second and later array elements, each preceded by a comma, newline and
indentation. -/
def emitTasksRest : List Task → List Char
  | [] => []
  | t :: ts => ",\n  ".data ++ emitTask t ++ emitTasksRest ts

/-- `serde_json::to_string_pretty` of the whole task vector. -/
def emitTasks (tasks : List Task) : List Char :=
  match tasks with
  | [] => "[]".data
  | t :: ts => "[\n  ".data ++ emitTask t ++ emitTasksRest ts ++ "\n]".data

/-- JSON whitespace: space, tab, line feed, carriage return. -/
def isJsonWs (c : Char) : Bool :=
  c.toNat = 32 || c.toNat = 9 || c.toNat = 10 || c.toNat = 13

/-- Skip leading JSON whitespace. -/
def skipWs (cs : List Char) : List Char :=
  cs.dropWhile isJsonWs

/-- Decimal digit test. -/
def isDigitChar (c : Char) : Bool :=
  48 ≤ c.toNat && c.toNat ≤ 57

/-- Value of a string of decimal digits, most significant first. -/
def digitsToNat (ds : List Char) : Nat :=
  ds.foldl (fun a c => a * 10 + (c.toNat - 48)) 0

/-- Parse a natural number: one or more leading digits. -/
def parseNat (cs : List Char) : Option (Nat × List Char) :=
  let ds := cs.takeWhile isDigitChar
  if ds.isEmpty then none
  else some (digitsToNat ds, cs.dropWhile isDigitChar)

/-- Consume an exact literal. -/
def parseLit (lit : List Char) (cs : List Char) : Option (List Char) :=
  match lit, cs with
  | [], rest => some rest
  | _ :: _, [] => none
  | l :: ls, c :: rest => if c = l then parseLit ls rest else none

/-- Parse a JSON boolean. -/
def parseBool (cs : List Char) : Option (Bool × List Char) :=
  match parseLit "true".data cs with
  | some rest => some (true, rest)
  | none =>
    match parseLit "false".data cs with
    | some rest => some (false, rest)
    | none => none

/-- Value of one hexadecimal digit character, upper or lower case. -/
def fromHexDigit (c : Char) : Option Nat :=
  if 48 ≤ c.toNat ∧ c.toNat ≤ 57 then some (c.toNat - 48)
  else if 97 ≤ c.toNat ∧ c.toNat ≤ 102 then some (c.toNat - 87)
  else if 65 ≤ c.toNat ∧ c.toNat ≤ 70 then some (c.toNat - 55)
  else none

/-- Prepend a character to the string part of a string-parser result. -/
def consParse (c : Char) (r : Option (List Char × List Char)) :
    Option (List Char × List Char) :=
  r.map (fun p => (c :: p.1, p.2))

/-- Parse the body of a JSON string up to and including the closing quote,
undoing the escapes; raw control characters are rejected as serde does. -/
def parseStringBody : List Char → Option (List Char × List Char)
  | [] => none
  | c :: rest =>
    if c = '"' then some ([], rest)
    else if c = '\\' then
      match rest with
      | [] => none
      | e :: rest2 =>
        if e = '"' then consParse '"' (parseStringBody rest2)
        else if e = '\\' then consParse '\\' (parseStringBody rest2)
        else if e = '/' then consParse '/' (parseStringBody rest2)
        else if e = 'b' then consParse (Char.ofNat 8) (parseStringBody rest2)
        else if e = 't' then consParse (Char.ofNat 9) (parseStringBody rest2)
        else if e = 'n' then consParse (Char.ofNat 10) (parseStringBody rest2)
        else if e = 'f' then consParse (Char.ofNat 12) (parseStringBody rest2)
        else if e = 'r' then consParse (Char.ofNat 13) (parseStringBody rest2)
        else if e = 'u' then
          match rest2 with
          | h1 :: h2 :: h3 :: h4 :: rest3 =>
            match fromHexDigit h1, fromHexDigit h2, fromHexDigit h3, fromHexDigit h4 with
            | some a, some b, some c3, some d =>
              let n := ((a * 16 + b) * 16 + c3) * 16 + d
              if n.isValidChar then consParse (Char.ofNat n) (parseStringBody rest3)
              else none
            | _, _, _, _ => none
          | _ => none
        else none
    else if c.toNat < 32 then none
    else consParse c (parseStringBody rest)

/-- Parse a JSON string literal including its opening quote. -/
def parseString (cs : List Char) : Option (List Char × List Char) :=
  match cs with
  | c :: rest => if c = '"' then parseStringBody rest else none
  | [] => none

/-- Require a specific next character. -/
def expectChar (c : Char) (cs : List Char) : Option (List Char) :=
  match cs with
  | x :: rest => if x = c then some rest else none
  | [] => none

/-- Parse an object key and its colon: whitespace, the quoted key,
whitespace, a colon, whitespace. -/
def parseField (key : List Char) (cs : List Char) : Option (List Char) :=
  match parseLit ('"' :: key ++ ['"']) (skipWs cs) with
  | some rest =>
    match expectChar ':' (skipWs rest) with
    | some rest2 => some (skipWs rest2)
    | none => none
  | none => none

/-- Parse one task object, requiring the four fields serde_json emits, in
emitted order. -/
def parseTask (cs : List Char) : Option (Task × List Char) := do
  let cs ← expectChar lbrace (skipWs cs)
  let cs ← parseField "id".data cs
  let (id, cs) ← parseNat cs
  let cs ← expectChar ',' (skipWs cs)
  let cs ← parseField "description".data cs
  let (desc, cs) ← parseString cs
  let cs ← expectChar ',' (skipWs cs)
  let cs ← parseField "completed".data cs
  let (completed, cs) ← parseBool cs
  let cs ← expectChar ',' (skipWs cs)
  let cs ← parseField "created_at".data cs
  let (created, cs) ← parseString cs
  let cs ← expectChar rbrace (skipWs cs)
  pure (Task.mk id (String.mk desc) completed (String.mk created), cs)

/-- Parse `(',' task)* ']'` with explicit fuel (each step consumes at least
one character, so any fuel of at least the remaining element count plus one
suffices). -/
def parseTasksAux : Nat → List Char → Option (List Task × List Char)
  | 0, _ => none
  | fuel + 1, cs =>
    if (skipWs cs).head? = some ']' then some ([], (skipWs cs).tail)
    else if (skipWs cs).head? = some ',' then do
      let (t, cs2) ← parseTask (skipWs cs).tail
      let (ts, cs3) ← parseTasksAux fuel cs2
      pure (t :: ts, cs3)
    else none

/-- `serde_json::from_str::<Vec<Task>>`: a JSON array of task objects with
nothing but whitespace after it; `none` models a serde error. -/
def parseTasks (cs : List Char) : Option (List Task) := do
  let cs1 ← expectChar '[' (skipWs cs)
  if (skipWs cs1).head? = some ']' then
    if (skipWs (skipWs cs1).tail).isEmpty then some [] else none
  else do
    let (t, cs2) ← parseTask cs1
    let (ts, cs3) ← parseTasksAux (cs2.length + 1) cs2
    if (skipWs cs3).isEmpty then some (t :: ts) else none

/-! ### The file and the command dispatch -/

/-- State of the persistence file as the program can observe it:
`path.exists()` false, readable with some content, or unreadable
(`fs::read_to_string` returning `Err`). -/
inductive FileState where
  | absent
  | unreadable
  | present (content : List Char)
deriving DecidableEq

/-- Embeds `TodoList::load_tasks` (`src/main.rs:75-84`): an absent file and
a failed read both give the empty vector, and a read that succeeds is
parsed with `unwrap_or_else(|_| vec![])`, so a parse error also gives the
empty vector. -/
def load_tasks : FileState → List Task
  | FileState.absent => []
  | FileState.unreadable => []
  | FileState.present content => (parseTasks content).getD []

/-- Embeds `TodoList::save` (`src/main.rs:86-90`): serialize the whole
vector and overwrite the file with it. -/
def save (tasks : List Task) : FileState :=
  FileState.present (emitTasks tasks)

/-- The `TodoList` struct together with the file it persists to: the
in-memory vector and the file contents. -/
structure Store where
  tasks : List Task
  file : FileState
deriving DecidableEq

/-- `TodoList::new` (`src/main.rs:62-66`): load the file into memory. -/
def Store.fromFile (fs : FileState) : Store :=
  ⟨load_tasks fs, fs⟩

/-- Apply one method's result to the store: the new vector, and the file
overwritten exactly when the method called `save()`. -/
def applyOp (s : Store) (r : OpResult) : Store :=
  ⟨r.tasks, if r.saved then save r.tasks else s.file⟩

/-- The five parsed subcommands (`enum Commands`, `src/main.rs:14-46`). -/
inductive Command where
  | add (description : String)
  | list (completed pending : Bool)
  | complete (id : Nat)
  | delete (id : Nat)
  | clear (yes : Bool)
deriving DecidableEq

/-- The dispatch in `main` (`src/main.rs:179-188`): run the matching method
against the store, returning the new store and the printed message. -/
def runCommand (now : String) (cmd : Command) (s : Store) : Store × Msg :=
  match cmd with
  | Command.add d =>
    let r := add_task s.tasks d now
    (applyOp s r, r.msg)
  | Command.list c p => (s, list_output s.tasks c p)
  | Command.complete id =>
    let r := complete_task s.tasks id
    (applyOp s r, r.msg)
  | Command.delete id =>
    let r := delete_task s.tasks id
    (applyOp s r, r.msg)
  | Command.clear y =>
    let r := clear_all s.tasks y
    (applyOp s r, r.msg)

/-- Exit code of `main` (`src/main.rs:190-193`) as a function of whether the
method attempted a save and whether writing the file would succeed: only a
failing `save()?` makes the process exit 1. -/
def exitCode (writeOk : Bool) (r : OpResult) : Nat :=
  if r.saved && !writeOk then 1 else 0

/-! ### Basic facts about id assignment -/

lemma maxId_nil : maxId [] = 0 := rfl

lemma maxId_cons (t : Task) (ts : List Task) : maxId (t :: ts) = max t.id (maxId ts) := by
  unfold maxId
  rw [List.map_cons, List.max?_cons]
  cases h : (ts.map Task.id).max? with
  | none => simp [h]
  | some m => simp [h]

lemma le_maxId {t : Task} {ts : List Task} (h : t ∈ ts) : t.id ≤ maxId ts := by
  induction ts with
  | nil => cases h
  | cons u us ih =>
    rw [maxId_cons]
    rcases List.mem_cons.mp h with h1 | h2
    · exact h1 ▸ le_max_left _ _
    · exact le_trans (ih h2) (le_max_right _ _)

lemma maxId_append (ts : List Task) (t : Task) :
    maxId (ts ++ [t]) = max (maxId ts) t.id := by
  induction ts with
  | nil => simp [maxId_cons, maxId_nil]
  | cons u us ih =>
    rw [List.cons_append, maxId_cons, ih, maxId_cons, max_assoc]

lemma add_task_eq (tasks : List Task) (d now : String) :
    add_task tasks d now
      = ⟨tasks ++ [⟨maxId tasks + 1, d, false, now⟩], true, Msg.taskAdded⟩ := rfl

lemma addN_ids (descs : List String) (now : String) : ∀ tasks : List Task,
    (addN descs now tasks).map Task.id
      = tasks.map Task.id ++ List.range' (maxId tasks + 1) descs.length := by
  induction descs with
  | nil => intro tasks; simp [addN]
  | cons d ds ih =>
    intro tasks
    have step : addN (d :: ds) now tasks
        = addN ds now (tasks ++ [⟨maxId tasks + 1, d, false, now⟩]) := rfl
    have hmax : max (maxId tasks) (maxId tasks + 1) = maxId tasks + 1 :=
      Nat.max_eq_right (Nat.le_succ _)
    rw [step, ih, maxId_append]
    simp only [hmax, List.map_append, List.map_cons, List.map_nil, List.length_cons,
      List.range'_succ, List.append_assoc, List.cons_append, List.nil_append]

/-- Claim C2: starting from the empty store, N adds yield ids 1..N in
insertion order; in general `add_task` appends a task whose id is one more
than the current maximum id (so 1 on an empty store) with
`completed = false` and the supplied timestamp. -/
theorem c2_sequential_ids :
    (∀ (tasks : List Task) (d now : String),
        add_task tasks d now
          = ⟨tasks ++ [⟨maxId tasks + 1, d, false, now⟩], true, Msg.taskAdded⟩)
    ∧ maxId [] = 0
    ∧ (∀ (descs : List String) (now : String),
        (addN descs now []).map Task.id = List.range' 1 descs.length) := by
  refine ⟨fun tasks d now => rfl, rfl, fun descs now => ?_⟩
  simpa using addN_ids descs now []

/-- Claim C1 fails on the code: the next id is recomputed as `max + 1` over
the remaining tasks only, so a deleted id can be handed out again.
Concretely, with the single task of id 1, `delete_task 1` succeeds (message
`deleted 1`) and the following add assigns id 1 once more. -/
theorem c1_counterexample :
    (delete_task [⟨1, "a", false, "t0"⟩] 1).msg = Msg.deleted 1
    ∧ ((add_task (delete_task [⟨1, "a", false, "t0"⟩] 1).tasks "b" "t1").tasks).map Task.id
        = [1] := by
  constructor
  · rfl
  · rfl

/-- Claim C1, amended: after `delete_task`, a subsequent `add_task` assigns
id `maxId remaining + 1`, which differs from every id still present in the
sequence, and differs from the deleted id whenever the deleted id is at
most the maximum remaining id.  The new id is not always fresh with respect
to the deleted id: it coincides with it exactly when the deleted id equals
`maxId remaining + 1`, as in the counterexample above. -/
theorem c1_fresh_only_among_remaining :
    ∀ (tasks : List Task) (d : Nat) (desc now : String),
    (∀ t ∈ (delete_task tasks d).tasks, t.id ≠ maxId (delete_task tasks d).tasks + 1)
    ∧ (add_task (delete_task tasks d).tasks desc now).tasks
        = (delete_task tasks d).tasks
          ++ [⟨maxId (delete_task tasks d).tasks + 1, desc, false, now⟩]
    ∧ (d ≤ maxId (delete_task tasks d).tasks
        → maxId (delete_task tasks d).tasks + 1 ≠ d) := by
  intro tasks d desc now
  refine ⟨fun t ht => ?_, rfl, fun hle => by omega⟩
  have := le_maxId ht
  omega

/-- Claim C1 amended, instantiated: deleting id 1 from a store that also
holds id 2 and then adding assigns id 3, different from the deleted id. -/
theorem c1_fresh_only_among_remaining_witness :
    1 ≤ maxId (delete_task [⟨1, "a", false, "t"⟩, ⟨2, "b", false, "t"⟩] 1).tasks
    ∧ maxId (delete_task [⟨1, "a", false, "t"⟩, ⟨2, "b", false, "t"⟩] 1).tasks + 1 ≠ 1 :=
  ⟨by decide, (c1_fresh_only_among_remaining [⟨1, "a", false, "t"⟩, ⟨2, "b", false, "t"⟩]
      1 "c" "t2").2.2 (by decide)⟩

/-- Claim C4: listing filters without mutating: no flags returns the whole
sequence, `show_completed` returns exactly the completed tasks (whatever
`show_pending` is), `show_pending` alone returns exactly the pending ones;
every view is a subsequence (original relative order), and the `list`
command leaves the store, hence the file, unchanged. -/
theorem c4_list_is_pure_filter :
    ∀ (tasks : List Task) (c p : Bool) (now : String) (s : Store),
    list_tasks tasks false false = tasks
    ∧ list_tasks tasks true p = tasks.filter (fun t => t.completed)
    ∧ list_tasks tasks false true = tasks.filter (fun t => !t.completed)
    ∧ (list_tasks tasks c p).Sublist tasks
    ∧ (runCommand now (Command.list c p) s).1 = s := by
  intro tasks c p now s
  refine ⟨rfl, rfl, rfl, ?_, rfl⟩
  unfold list_tasks
  split
  · exact List.filter_sublist _
  · split
    · exact List.filter_sublist _
    · exact List.Sublist.refl _

/-- Claim C8: an unconfirmed `clear_all` changes nothing: the result keeps
the task sequence, does not save (so `applyOp` returns the very same store
and file), only prints the confirmation warning, and exits 0. -/
theorem c8_unconfirmed_clear_noop :
    ∀ (s : Store) (w : Bool) (now : String),
    clear_all s.tasks false = ⟨s.tasks, false, Msg.clearWarning⟩
    ∧ applyOp s (clear_all s.tasks false) = s
    ∧ runCommand now (Command.clear false) s = (s, Msg.clearWarning)
    ∧ exitCode w (clear_all s.tasks false) = 0 := by
  intro s w now
  exact ⟨rfl, rfl, rfl, rfl⟩

/-! ### Completing and deleting -/

lemma complete_task_not_found (ts : List Task) (id : Nat) (h : ∀ t ∈ ts, t.id ≠ id) :
    complete_task ts id = ⟨ts, false, Msg.notFound id⟩ := by
  induction ts with
  | nil => rfl
  | cons t ts ih =>
    have hne : t.id ≠ id := h t (List.mem_cons_self t ts)
    have ht := ih (fun u hu => h u (List.mem_cons_of_mem t hu))
    simp only [complete_task, if_neg hne, ht]

lemma delete_task_tasks (ts : List Task) (id : Nat) :
    (delete_task ts id).tasks = ts.filter (fun t => t.id != id) := by
  simp only [delete_task]
  split <;> rfl

lemma delete_task_not_found (ts : List Task) (id : Nat) (h : ∀ t ∈ ts, t.id ≠ id) :
    delete_task ts id = ⟨ts, false, Msg.notFound id⟩ := by
  have hf : ts.filter (fun t => t.id != id) = ts :=
    List.filter_eq_self.mpr (fun t ht => by simpa using h t ht)
  simp only [delete_task, hf]
  rw [if_neg (lt_irrefl ts.length)]

lemma filter_length_lt_of_mem {p : Task → Bool} {ts : List Task} {t : Task}
    (ht : t ∈ ts) (hp : p t = false) : (ts.filter p).length < ts.length := by
  induction ts with
  | nil => cases ht
  | cons u us ih =>
    rcases List.mem_cons.mp ht with h1 | h2
    · have hpu : p u = false := h1 ▸ hp
      rw [List.filter_cons, hpu, if_neg Bool.false_ne_true]
      exact lt_of_le_of_lt (List.length_filter_le _ _) (Nat.lt_succ_self _)
    · cases hpu : p u
      · rw [List.filter_cons, hpu, if_neg Bool.false_ne_true]
        exact lt_of_le_of_lt (List.length_filter_le _ _) (Nat.lt_succ_self _)
      · rw [List.filter_cons, hpu, if_pos rfl, List.length_cons]
        exact Nat.succ_lt_succ (ih h2)

/-- Claim C6: deleting an id that is present drops exactly the tasks with
that id, keeps the remaining tasks in their original relative order (the
result is the `retain` filter, a subsequence of the input), reports the
deletion and saves, overwriting the file with the new sequence. -/
theorem c6_delete_found :
    ∀ (s : Store) (id : Nat), (∃ t ∈ s.tasks, t.id = id) →
    (delete_task s.tasks id).tasks = s.tasks.filter (fun t => t.id != id)
    ∧ (delete_task s.tasks id).tasks.Sublist s.tasks
    ∧ (∀ u ∈ (delete_task s.tasks id).tasks, u.id ≠ id)
    ∧ (delete_task s.tasks id).saved = true
    ∧ (delete_task s.tasks id).msg = Msg.deleted id
    ∧ (applyOp s (delete_task s.tasks id)).file = save (delete_task s.tasks id).tasks := by
  intro s id h
  obtain ⟨t, ht, hid⟩ := h
  have hlt : (s.tasks.filter (fun t => t.id != id)).length < s.tasks.length :=
    filter_length_lt_of_mem ht (by simp [hid])
  have e : delete_task s.tasks id
      = ⟨s.tasks.filter (fun t => t.id != id), true, Msg.deleted id⟩ := by
    simp only [delete_task]
    rw [if_pos hlt]
  have hmem : ∀ u ∈ (delete_task s.tasks id).tasks, u.id ≠ id := by
    intro u hu
    rw [delete_task_tasks] at hu
    simpa using List.of_mem_filter hu
  refine ⟨by rw [e], ?_, hmem, by rw [e], by rw [e], by rw [e]; rfl⟩
  rw [delete_task_tasks]
  exact List.filter_sublist _

/-- Claim C6, instantiated at a two-task store with the first id deleted. -/
theorem c6_delete_found_witness :
    (⟨2, "b", false, "t"⟩ : Task) ∈ [(⟨1, "a", false, "t"⟩ : Task), ⟨2, "b", false, "t"⟩]
    ∧ (delete_task [(⟨1, "a", false, "t"⟩ : Task), ⟨2, "b", false, "t"⟩] 2).tasks
        = [(⟨1, "a", false, "t"⟩ : Task), ⟨2, "b", false, "t"⟩].filter (fun t => t.id != 2) :=
  ⟨by decide,
    (c6_delete_found ⟨[⟨1, "a", false, "t"⟩, ⟨2, "b", false, "t"⟩], FileState.absent⟩ 2
      ⟨⟨2, "b", false, "t"⟩, by decide, rfl⟩).1⟩

/-- Claim C7: completing or deleting an id no task carries leaves the task
sequence, the store and the file untouched, prints the not-found message and
exits 0 regardless of whether a write would succeed (no write is attempted);
and a second delete of an id just deleted always reports not-found without
writing. -/
theorem c7_not_found_noop :
    ∀ (s : Store) (id : Nat) (w : Bool), (∀ t ∈ s.tasks, t.id ≠ id) →
    complete_task s.tasks id = ⟨s.tasks, false, Msg.notFound id⟩
    ∧ delete_task s.tasks id = ⟨s.tasks, false, Msg.notFound id⟩
    ∧ applyOp s (complete_task s.tasks id) = s
    ∧ applyOp s (delete_task s.tasks id) = s
    ∧ exitCode w (complete_task s.tasks id) = 0
    ∧ exitCode w (delete_task s.tasks id) = 0
    ∧ (∀ (ts : List Task) (id2 : Nat),
        delete_task (delete_task ts id2).tasks id2
          = ⟨(delete_task ts id2).tasks, false, Msg.notFound id2⟩) := by
  intro s id w h
  have hc := complete_task_not_found s.tasks id h
  have hd := delete_task_not_found s.tasks id h
  refine ⟨hc, hd, by rw [hc]; rfl, by rw [hd]; rfl, by rw [hc]; rfl, by rw [hd]; rfl, ?_⟩
  intro ts id2
  apply delete_task_not_found
  intro u hu
  rw [delete_task_tasks] at hu
  simpa using List.of_mem_filter hu

/-- Claim C7, instantiated: completing and deleting id 7 in a one-task store
holding only id 1 changes nothing and reports not-found. -/
theorem c7_not_found_noop_witness :
    (∀ t ∈ [(⟨1, "a", false, "t"⟩ : Task)], t.id ≠ 7)
    ∧ complete_task [(⟨1, "a", false, "t"⟩ : Task)] 7
        = ⟨[⟨1, "a", false, "t"⟩], false, Msg.notFound 7⟩ :=
  ⟨by decide,
    (c7_not_found_noop ⟨[⟨1, "a", false, "t"⟩], FileState.absent⟩ 7 true
      (by decide)).1⟩

lemma complete_task_marks_first (pre : List Task) (t : Task) (post : List Task) (id : Nat)
    (hpre : ∀ u ∈ pre, u.id ≠ id) (ht : t.id = id) (hc : t.completed = false) :
    complete_task (pre ++ t :: post) id
      = ⟨pre ++ markCompleted t :: post, true, Msg.markedComplete id⟩ := by
  induction pre with
  | nil => simp [complete_task, ht, hc]
  | cons u us ih =>
    have hu : u.id ≠ id := hpre u (List.mem_cons_self u us)
    have hrec := ih (fun v hv => hpre v (List.mem_cons_of_mem u hv))
    simp [List.cons_append, complete_task, if_neg hu, hrec]

/-- Claim C5: when some task carries the id, completing twice leaves the
first task with that id completed after each call (the first call marks it
if needed), and the second call changes nothing, prints the
already-completed message and does not save. -/
theorem c5_complete_idempotent :
    ∀ (tasks : List Task) (id : Nat), (∃ t ∈ tasks, t.id = id) →
    ((complete_task tasks id).tasks.find? (fun t => t.id == id)).map Task.completed
        = some true
    ∧ (complete_task (complete_task tasks id).tasks id).tasks
        = (complete_task tasks id).tasks
    ∧ (complete_task (complete_task tasks id).tasks id).msg = Msg.alreadyCompleted id
    ∧ (complete_task (complete_task tasks id).tasks id).saved = false
    ∧ ((complete_task (complete_task tasks id).tasks id).tasks.find?
        (fun t => t.id == id)).map Task.completed = some true := by
  intro tasks id h
  induction tasks with
  | nil => obtain ⟨t, ht, _⟩ := h; cases ht
  | cons t ts ih =>
    by_cases hid : t.id = id
    · by_cases hcomp : t.completed = true
      · have e1 : complete_task (t :: ts) id = ⟨t :: ts, false, Msg.alreadyCompleted id⟩ := by
          simp [complete_task, hid, hcomp]
        have hfind : ((t :: ts).find? (fun t => t.id == id)).map Task.completed = some true := by
          simp [List.find?_cons, hid, hcomp]
        rw [e1]
        exact ⟨hfind, by rw [e1], by rw [e1], by rw [e1], by rw [e1]; exact hfind⟩
      · have hcf : t.completed = false := by simpa using hcomp
        have e1 : complete_task (t :: ts) id
            = ⟨markCompleted t :: ts, true, Msg.markedComplete id⟩ := by
          simp [complete_task, hid, hcf]
        have e2 : complete_task (markCompleted t :: ts) id
            = ⟨markCompleted t :: ts, false, Msg.alreadyCompleted id⟩ := by
          simp [complete_task, markCompleted, hid]
        have hfind : ((markCompleted t :: ts).find? (fun t => t.id == id)).map Task.completed
            = some true := by
          simp [List.find?_cons, markCompleted, hid]
        rw [e1]
        exact ⟨hfind, by rw [e2], by rw [e2], by rw [e2], by rw [e2]; exact hfind⟩
    · obtain ⟨u, hu, huid⟩ := h
      have hu2 : u ∈ ts := by
        rcases List.mem_cons.mp hu with h1 | h2
        · exact absurd (h1 ▸ huid) hid
        · exact h2
      obtain ⟨ih1, ih2, ih3, ih4, ih5⟩ := ih ⟨u, hu2, huid⟩
      have e1 : complete_task (t :: ts) id
          = ⟨t :: (complete_task ts id).tasks, (complete_task ts id).saved,
              (complete_task ts id).msg⟩ := by
        simp only [complete_task, if_neg hid]
      have e2 : complete_task (t :: (complete_task ts id).tasks) id
          = ⟨t :: (complete_task (complete_task ts id).tasks id).tasks,
              (complete_task (complete_task ts id).tasks id).saved,
              (complete_task (complete_task ts id).tasks id).msg⟩ := by
        simp only [complete_task, if_neg hid]
      have hbeq : (t.id == id) = false := by simpa using hid
      rw [e1]
      refine ⟨?_, ?_, ?_, ?_, ?_⟩
      · simpa [List.find?_cons, hbeq] using ih1
      · rw [e2, ih2]
      · rw [e2]; exact ih3
      · rw [e2]; exact ih4
      · rw [e2]; simpa [List.find?_cons, hbeq] using ih5

/-- Claim C5, instantiated at a one-task store. -/
theorem c5_complete_idempotent_witness :
    ((⟨1, "a", false, "t"⟩ : Task) ∈ [(⟨1, "a", false, "t"⟩ : Task)] ∧ (1 : Nat) = 1)
    ∧ (complete_task (complete_task [(⟨1, "a", false, "t"⟩ : Task)] 1).tasks 1).msg
        = Msg.alreadyCompleted 1 :=
  ⟨⟨by decide, rfl⟩,
    (c5_complete_idempotent [⟨1, "a", false, "t"⟩] 1
      ⟨⟨1, "a", false, "t"⟩, by decide, rfl⟩).2.2.1⟩

/-- Claim C3: loading never surfaces an error: an absent file and an
unreadable file load as the empty sequence, any content the parser rejects
loads as the empty sequence, and constructing the store just stores that
load result alongside the file. -/
theorem c3_load_never_errors :
    load_tasks FileState.absent = []
    ∧ load_tasks FileState.unreadable = []
    ∧ (∀ content : List Char, parseTasks content = none →
        load_tasks (FileState.present content) = [])
    ∧ (∀ fs : FileState, Store.fromFile fs = ⟨load_tasks fs, fs⟩) := by
  refine ⟨rfl, rfl, fun content h => ?_, fun fs => rfl⟩
  simp [load_tasks, h]

/-- Claim C3, instantiated on contents that are not JSON at all. -/
theorem c3_load_never_errors_witness :
    parseTasks "not json".data = none
    ∧ load_tasks (FileState.present "not json".data) = [] :=
  ⟨by decide, c3_load_never_errors.2.2.1 "not json".data (by decide)⟩

/-! ### Round trip of the persistence format: numbers -/

lemma toNat_digitChar {n : Nat} (h : n < 10) : (digitChar n).toNat = 48 + n := by
  interval_cases n <;> decide

lemma isDigitChar_digitChar {n : Nat} (h : n < 10) : isDigitChar (digitChar n) = true := by
  interval_cases n <;> decide

lemma digit_not_ws {c : Char} (h : isDigitChar c = true) : isJsonWs c = false := by
  simp only [isDigitChar, Bool.and_eq_true, decide_eq_true_eq] at h
  simp only [isJsonWs, Bool.or_eq_false_iff, decide_eq_false_iff_not]
  omega

lemma emitNat_eq_of_lt {n : Nat} (h : n < 10) : emitNat n = [digitChar n] := by
  rw [emitNat, dif_pos h]

lemma emitNat_eq_of_ge {n : Nat} (h : ¬n < 10) :
    emitNat n = emitNat (n / 10) ++ [digitChar (n % 10)] := by
  rw [emitNat, dif_neg h]

lemma emitNat_ne_nil (n : Nat) : emitNat n ≠ [] := by
  by_cases h : n < 10
  · rw [emitNat_eq_of_lt h]; simp
  · rw [emitNat_eq_of_ge h]; simp

lemma emitNat_digits (n : Nat) : ∀ c ∈ emitNat n, isDigitChar c = true := by
  induction n using Nat.strong_induction_on with
  | _ n ih =>
    by_cases h : n < 10
    · rw [emitNat_eq_of_lt h]
      intro c hc
      rw [List.mem_singleton.mp hc]
      exact isDigitChar_digitChar h
    · rw [emitNat_eq_of_ge h]
      intro c hc
      rcases List.mem_append.mp hc with h1 | h2
      · exact ih (n / 10) (Nat.div_lt_self (by omega) (by omega)) c h1
      · rw [List.mem_singleton.mp h2]
        exact isDigitChar_digitChar (Nat.mod_lt _ (by omega))

lemma digitsToNat_append (ds : List Char) (c : Char) :
    digitsToNat (ds ++ [c]) = digitsToNat ds * 10 + (c.toNat - 48) := by
  simp [digitsToNat, List.foldl_append]

lemma digitsToNat_emitNat (n : Nat) : digitsToNat (emitNat n) = n := by
  induction n using Nat.strong_induction_on with
  | _ n ih =>
    by_cases h : n < 10
    · rw [emitNat_eq_of_lt h]
      simp [digitsToNat, toNat_digitChar h]
    · rw [emitNat_eq_of_ge h, digitsToNat_append,
        ih (n / 10) (Nat.div_lt_self (by omega) (by omega)),
        toNat_digitChar (Nat.mod_lt _ (by omega))]
      omega

lemma takeWhile_append_all {α : Type} {p : α → Bool} (l r : List α)
    (h : ∀ a ∈ l, p a = true) : (l ++ r).takeWhile p = l ++ r.takeWhile p := by
  induction l with
  | nil => rfl
  | cons a l ih =>
    have ha := h a (List.mem_cons_self a l)
    simp [List.takeWhile_cons, ha, ih (fun b hb => h b (List.mem_cons_of_mem a hb))]

lemma dropWhile_append_all {α : Type} {p : α → Bool} (l r : List α)
    (h : ∀ a ∈ l, p a = true) : (l ++ r).dropWhile p = r.dropWhile p := by
  induction l with
  | nil => rfl
  | cons a l ih =>
    have ha := h a (List.mem_cons_self a l)
    simp [List.dropWhile_cons, ha, ih (fun b hb => h b (List.mem_cons_of_mem a hb))]

lemma parseNat_emitNat (n : Nat) (Y : List Char)
    (h1 : Y.takeWhile isDigitChar = []) (h2 : Y.dropWhile isDigitChar = Y) :
    parseNat (emitNat n ++ Y) = some (n, Y) := by
  have hemp : (emitNat n).isEmpty = false := by
    cases hn : emitNat n with
    | nil => exact absurd hn (emitNat_ne_nil n)
    | cons c cs => rfl
  simp only [parseNat, takeWhile_append_all _ _ (emitNat_digits n),
    dropWhile_append_all _ _ (emitNat_digits n), h1, h2, List.append_nil, hemp,
    Bool.false_eq_true, if_false, digitsToNat_emitNat]

/-! ### Round trip of the persistence format: strings -/

lemma fromHexDigit_hexDigitChar {m : Nat} (h : m < 16) :
    fromHexDigit (hexDigitChar m) = some m := by
  interval_cases m <;> decide

lemma parseStringBody_unicode (m : Nat) (hm : m < 32) (h8 : m ≠ 8) (h9 : m ≠ 9)
    (h10 : m ≠ 10) (h12 : m ≠ 12) (h13 : m ≠ 13) (tail : List Char) :
    parseStringBody
        ('\\' :: 'u' :: '0' :: '0' :: hexDigitChar (m / 16) :: hexDigitChar (m % 16) :: tail)
      = consParse (Char.ofNat m) (parseStringBody tail) := by
  interval_cases m <;> first
  | exact absurd rfl (by assumption)
  | (rw [parseStringBody.eq_def]; rfl)

lemma parseStringBody_escapeChar (c : Char) (tail : List Char) :
    parseStringBody (escapeChar c ++ tail) = consParse c (parseStringBody tail) := by
  by_cases hq : c = '"'
  · subst hq; rw [parseStringBody.eq_def]; rfl
  · by_cases hb : c = '\\'
    · subst hb; rw [parseStringBody.eq_def]; rfl
    · by_cases h8 : c.toNat = 8
      · have hc : c = Char.ofNat 8 := by rw [← h8, Char.ofNat_toNat]
        subst hc; rw [parseStringBody.eq_def]; rfl
      · by_cases h9 : c.toNat = 9
        · have hc : c = Char.ofNat 9 := by rw [← h9, Char.ofNat_toNat]
          subst hc; rw [parseStringBody.eq_def]; rfl
        · by_cases h10 : c.toNat = 10
          · have hc : c = Char.ofNat 10 := by rw [← h10, Char.ofNat_toNat]
            subst hc; rw [parseStringBody.eq_def]; rfl
          · by_cases h12 : c.toNat = 12
            · have hc : c = Char.ofNat 12 := by rw [← h12, Char.ofNat_toNat]
              subst hc; rw [parseStringBody.eq_def]; rfl
            · by_cases h13 : c.toNat = 13
              · have hc : c = Char.ofNat 13 := by rw [← h13, Char.ofNat_toNat]
                subst hc; rw [parseStringBody.eq_def]; rfl
              · by_cases hlt : c.toNat < 32
                · have hesc : escapeChar c = ['\\', 'u', '0', '0',
                      hexDigitChar (c.toNat / 16), hexDigitChar (c.toNat % 16)] := by
                    unfold escapeChar
                    rw [if_neg hq, if_neg hb, if_neg h8, if_neg h9, if_neg h10, if_neg h12,
                      if_neg h13, if_pos hlt]
                  have huni := parseStringBody_unicode c.toNat hlt h8 h9 h10 h12 h13 tail
                  rw [Char.ofNat_toNat] at huni
                  rw [hesc]
                  simpa using huni
                · have hesc : escapeChar c = [c] := by
                    unfold escapeChar
                    rw [if_neg hq, if_neg hb, if_neg h8, if_neg h9, if_neg h10, if_neg h12,
                      if_neg h13, if_neg hlt]
                  rw [hesc, List.singleton_append, parseStringBody.eq_def]
                  simp only [if_neg hq, if_neg hb, if_neg hlt]

lemma escapeString_cons (c : Char) (s : List Char) :
    escapeString (c :: s) = escapeChar c ++ escapeString s := by
  simp [escapeString]

lemma parseStringBody_escapeString (s : List Char) (rest : List Char) :
    parseStringBody (escapeString s ++ '"' :: rest) = some (s, rest) := by
  induction s with
  | nil => rw [parseStringBody.eq_def]; rfl
  | cons c s ih =>
    rw [escapeString_cons, List.append_assoc, parseStringBody_escapeChar, ih]
    rfl

lemma parseString_emitString (s : String) (rest : List Char) :
    parseString (emitString s ++ rest) = some (s.data, rest) := by
  have h : emitString s ++ rest = '"' :: (escapeString s.data ++ '"' :: rest) := by
    simp [emitString]
  rw [h]
  exact parseStringBody_escapeString s.data rest

lemma parseBool_emitBool (b : Bool) (rest : List Char) :
    parseBool (emitBool b ++ rest) = some (b, rest) := by
  cases b <;> rfl

lemma skipWs_emitNat (n : Nat) (X : List Char) :
    skipWs (emitNat n ++ X) = emitNat n ++ X := by
  cases hn : emitNat n with
  | nil => exact absurd hn (emitNat_ne_nil n)
  | cons c cs =>
    have hc : isDigitChar c = true := emitNat_digits n c (by rw [hn]; exact List.mem_cons_self c cs)
    simp [skipWs, List.dropWhile_cons, digit_not_ws hc]

lemma skipWs_emitString (s : String) (X : List Char) :
    skipWs (emitString s ++ X) = emitString s ++ X := rfl

lemma skipWs_emitBool (b : Bool) (X : List Char) :
    skipWs (emitBool b ++ X) = emitBool b ++ X := by
  cases b <;> rfl

/-! ### Round trip of the persistence format: one task object -/

lemma parseTask_emitTask (t : Task) (rest : List Char) :
    parseTask (emitTask t ++ rest) = some (t, rest) := by
  obtain ⟨i, d, b, ca⟩ := t
  have sA : ∀ X : List Char, expectChar lbrace (skipWs (['\x7b', '\n', ' ', ' ', ' ', ' ', '\"', 'i', 'd', '\"', ':', ' '] ++ X))
      = some (['\n', ' ', ' ', ' ', ' ', '\"', 'i', 'd', '\"', ':', ' '] ++ X) := fun X => rfl
  have sB : ∀ X : List Char, parseField ['i', 'd'] (['\n', ' ', ' ', ' ', ' ', '\"', 'i', 'd', '\"', ':', ' '] ++ X)
      = some (skipWs X) := fun X => rfl
  have sC : ∀ X : List Char, expectChar ',' (skipWs ([',', '\n', ' ', ' ', ' ', ' ', '\"', 'd', 'e', 's', 'c', 'r', 'i', 'p', 't', 'i', 'o', 'n', '\"', ':', ' '] ++ X))
      = some (['\n', ' ', ' ', ' ', ' ', '\"', 'd', 'e', 's', 'c', 'r', 'i', 'p', 't', 'i', 'o', 'n', '\"', ':', ' '] ++ X) := fun X => rfl
  have sD : ∀ X : List Char, parseField ['d', 'e', 's', 'c', 'r', 'i', 'p', 't', 'i', 'o', 'n'] (['\n', ' ', ' ', ' ', ' ', '\"', 'd', 'e', 's', 'c', 'r', 'i', 'p', 't', 'i', 'o', 'n', '\"', ':', ' '] ++ X)
      = some (skipWs X) := fun X => rfl
  have sE : ∀ X : List Char, expectChar ',' (skipWs ([',', '\n', ' ', ' ', ' ', ' ', '\"', 'c', 'o', 'm', 'p', 'l', 'e', 't', 'e', 'd', '\"', ':', ' '] ++ X))
      = some (['\n', ' ', ' ', ' ', ' ', '\"', 'c', 'o', 'm', 'p', 'l', 'e', 't', 'e', 'd', '\"', ':', ' '] ++ X) := fun X => rfl
  have sF : ∀ X : List Char, parseField ['c', 'o', 'm', 'p', 'l', 'e', 't', 'e', 'd'] (['\n', ' ', ' ', ' ', ' ', '\"', 'c', 'o', 'm', 'p', 'l', 'e', 't', 'e', 'd', '\"', ':', ' '] ++ X)
      = some (skipWs X) := fun X => rfl
  have sG : ∀ X : List Char, expectChar ',' (skipWs ([',', '\n', ' ', ' ', ' ', ' ', '\"', 'c', 'r', 'e', 'a', 't', 'e', 'd', '_', 'a', 't', '\"', ':', ' '] ++ X))
      = some (['\n', ' ', ' ', ' ', ' ', '\"', 'c', 'r', 'e', 'a', 't', 'e', 'd', '_', 'a', 't', '\"', ':', ' '] ++ X) := fun X => rfl
  have sH : ∀ X : List Char, parseField ['c', 'r', 'e', 'a', 't', 'e', 'd', '_', 'a', 't'] (['\n', ' ', ' ', ' ', ' ', '\"', 'c', 'r', 'e', 'a', 't', 'e', 'd', '_', 'a', 't', '\"', ':', ' '] ++ X)
      = some (skipWs X) := fun X => rfl
  have sI : ∀ X : List Char, expectChar rbrace (skipWs (['\n', ' ', ' ', '\x7d'] ++ X))
      = some X := fun X => rfl
  have pN : ∀ (n : Nat) (X : List Char), parseNat (emitNat n ++ ([',', '\n', ' ', ' ', ' ', ' ', '\"', 'd', 'e', 's', 'c', 'r', 'i', 'p', 't', 'i', 'o', 'n', '\"', ':', ' '] ++ X))
      = some (n, [',', '\n', ' ', ' ', ' ', ' ', '\"', 'd', 'e', 's', 'c', 'r', 'i', 'p', 't', 'i', 'o', 'n', '\"', ':', ' '] ++ X) := fun n X => parseNat_emitNat n _ rfl rfl
  simp only [parseTask, emitTask, List.append_assoc, sA, sB, sC, sD, sE, sF, sG, sH, sI, pN,
    skipWs_emitNat, skipWs_emitString, parseString_emitString,
    skipWs_emitBool, parseBool_emitBool, Option.bind_eq_bind, Option.some_bind,
    Option.pure_def]

/-! ### Round trip of the persistence format: the array -/

lemma emitTasksRest_length_ge (ts : List Task) :
    ts.length ≤ (emitTasksRest ts).length := by
  induction ts with
  | nil => simp [emitTasksRest]
  | cons t ts ih =>
    have h4 : (",\n  ".data).length = 4 := rfl
    simp only [emitTasksRest, List.length_append, List.length_cons, h4]
    omega

lemma parseTasksAux_emitTasksRest :
    ∀ (ts : List Task) (fuel : Nat), ts.length < fuel →
    parseTasksAux fuel (emitTasksRest ts ++ ['\n', ']']) = some (ts, []) := by
  intro ts
  induction ts with
  | nil =>
    intro fuel hf
    cases fuel with
    | zero => exact absurd hf (Nat.not_lt_zero _)
    | succ f => rfl
  | cons t ts ih =>
    intro fuel hf
    cases fuel with
    | zero => exact absurd hf (Nat.not_lt_zero _)
    | succ f =>
      have hfuel : ts.length < f := by
        have := Nat.lt_of_succ_lt_succ hf
        simpa using this
      have hH : ∀ X : List Char, (skipWs ([',', '\n', ' ', ' '] ++ X)).head? = some ',' :=
        fun X => rfl
      have hT : ∀ X : List Char, (skipWs ([',', '\n', ' ', ' '] ++ X)).tail
          = ['\n', ' ', ' '] ++ X := fun X => rfl
      have hc1 : ((some (',' : Char) : Option Char) = some ']') = False := eq_false (by decide)
      have hc2 : ((some (',' : Char) : Option Char) = some ',') = True := eq_true rfl
      have hP3 : ∀ X : List Char, parseTask (['\n', ' ', ' '] ++ X) = parseTask X :=
        fun X => rfl
      have haux := ih f hfuel
      simp only [emitTasksRest, List.append_assoc, parseTasksAux, hH, hT, hc1, hc2,
        if_false, if_true, hP3, parseTask_emitTask, haux, Option.bind_eq_bind,
        Option.some_bind, Option.pure_def]

lemma parseTasks_emitTasks (ts : List Task) : parseTasks (emitTasks ts) = some ts := by
  cases ts with
  | nil => rfl
  | cons t ts =>
    have hA : ∀ X : List Char, expectChar '[' (skipWs (['[', '\n', ' ', ' '] ++ X))
        = some (['\n', ' ', ' '] ++ X) := fun X => rfl
    have hHd : ∀ (u : Task) (Y : List Char),
        (skipWs (['\n', ' ', ' '] ++ (emitTask u ++ Y))).head? = some '\x7b' :=
      fun u Y => rfl
    have hc1 : ((some ('\x7b' : Char) : Option Char) = some ']') = False := eq_false (by decide)
    have hP3 : ∀ X : List Char, parseTask (['\n', ' ', ' '] ++ X) = parseTask X :=
      fun X => rfl
    have hlen : ts.length < (emitTasksRest ts ++ ['\n', ']']).length + 1 := by
      have := emitTasksRest_length_ge ts
      simp only [List.length_append]
      omega
    have haux := parseTasksAux_emitTasksRest ts ((emitTasksRest ts ++ ['\n', ']']).length + 1)
      hlen
    have hend : (((skipWs ([] : List Char)).isEmpty) = true) = True := eq_true rfl
    simp only [parseTasks, emitTasks, List.append_assoc, hA, hHd, hc1, if_false,
      hP3, parseTask_emitTask, haux, Option.bind_eq_bind, Option.some_bind, hend, if_true,
      Option.pure_def]

/-- Claim C9: serialization round trip: rendering any task sequence to the
persistence text and parsing it back restores the sequence exactly, field
for field and in order; equivalently, loading a file just saved returns the
in-memory sequence. -/
theorem c9_serialize_roundtrip :
    ∀ ts : List Task, parseTasks (emitTasks ts) = some ts ∧ load_tasks (save ts) = ts := by
  intro ts
  refine ⟨parseTasks_emitTasks ts, ?_⟩
  simp [load_tasks, save, parseTasks_emitTasks ts]

/-- Claim C10: with duplicate ids in the loaded sequence (which `load_tasks`
allows: a hand-written file with two tasks of the same id parses fine),
`delete_task` removes every task carrying the id while `complete_task`
only marks the first one, leaving later duplicates untouched. -/
theorem c10_duplicate_ids :
    ∀ (pre post : List Task) (t : Task) (id : Nat),
    (∀ u ∈ pre, u.id ≠ id) → t.id = id → t.completed = false →
    (complete_task (pre ++ t :: post) id).tasks = pre ++ markCompleted t :: post
    ∧ (∀ ts : List Task, (delete_task ts id).tasks = ts.filter (fun u => u.id != id))
    ∧ (∀ ts : List Task, ∀ u ∈ (delete_task ts id).tasks, u.id ≠ id)
    ∧ load_tasks (FileState.present
        (emitTasks [⟨id, "a", false, "ta"⟩, ⟨id, "b", true, "tb"⟩]))
        = [⟨id, "a", false, "ta"⟩, ⟨id, "b", true, "tb"⟩] := by
  intro pre post t id hpre ht hc
  refine ⟨?_, fun ts => delete_task_tasks ts id, fun ts u hu => ?_, ?_⟩
  · rw [complete_task_marks_first pre t post id hpre ht hc]
  · rw [delete_task_tasks] at hu
    simpa using List.of_mem_filter hu
  · simp [load_tasks, parseTasks_emitTasks]

/-- Claim C10, instantiated: two tasks both with id 1; delete removes both,
complete marks only the first. -/
theorem c10_duplicate_ids_witness :
    (complete_task [(⟨1, "a", false, "t"⟩ : Task), ⟨1, "b", false, "t"⟩] 1).tasks
        = [(⟨1, "a", true, "t"⟩ : Task), ⟨1, "b", false, "t"⟩]
    ∧ (delete_task [(⟨1, "a", false, "t"⟩ : Task), ⟨1, "b", false, "t"⟩] 1).tasks = [] := by
  have h := c10_duplicate_ids [] [⟨1, "b", false, "t"⟩] ⟨1, "a", false, "t"⟩ 1
    (by intro u hu; cases hu) rfl rfl
  constructor
  · exact h.1
  · rw [h.2.1 [⟨1, "a", false, "t"⟩, ⟨1, "b", false, "t"⟩]]
    rfl

end Todo